import Mathlib

/-!
Verification of the temporal knowledge graph core (models.py, temporal_agent.py,
utils.py) against its specification.

Shallow embedding conventions:
* `datetime` instants are modelled as `Nat` (an ordered set with a minimum
  element; `datetime.min` is modelled as `0`).
* Python `dict`s (which preserve insertion order and overwrite in place) are
  modelled as association lists with an order-preserving `dictInsert`.
* Python `float` confidence scores are modelled as `Rat`; no claim depends on
  their arithmetic.
* Calls out to the external extraction / summarization collaborators (OpenAI)
  are outside the core and are not modelled; the query planner's `answer`
  field is represented only by whether a question was asked.
-/

namespace TKG

/-- Temporal classification of statements (models.py `TemporalClass`). -/
inductive TemporalClass where
  | atemporal
  | static
  | dynamic
deriving DecidableEq

/-- Type of fact being represented (models.py `FactType`). -/
inductive FactType where
  | fact
  | opinion
  | prediction
deriving DecidableEq

/-- models.py `TemporalEvent`: four optional instants. -/
structure TemporalEvent where
  t_created : Option Nat := none
  t_expired : Option Nat := none
  t_valid : Option Nat := none
  t_invalid : Option Nat := none
deriving DecidableEq

/-- models.py `TemporalEvent.is_valid_at`.  Each `if self.f and timestamp < self.f`
test is modelled by `Option.any` (a `datetime` value is always truthy in Python,
so `self.f and P` reads "f is set and P"). -/
def TemporalEvent.is_valid_at (e : TemporalEvent) (timestamp : Nat) : Bool :=
  if e.t_valid.any (fun tv => decide (timestamp < tv)) then false
  else if e.t_invalid.any (fun ti => decide (ti ≤ timestamp)) then false
  else if e.t_expired.any (fun tx => decide (tx ≤ timestamp)) then false
  else true

/-- models.py `Triplet`: subject / predicate / object. -/
structure Triplet where
  subject : String
  predicate : String
  object : String
deriving DecidableEq

/-- models.py `Statement`. -/
structure Statement where
  id : String
  text : String
  temporal_class : TemporalClass
  fact_type : FactType := FactType.fact
  triplets : List Triplet := []
  temporal_event : Option TemporalEvent := none
  source : Option String := none
  confidence : Rat := 1
  invalidated_by : List String := []
deriving DecidableEq

/-- models.py `Statement.is_valid_at`: delegate to the temporal event when
present, else always valid. -/
def Statement.is_valid_at (s : Statement) (timestamp : Nat) : Bool :=
  match s.temporal_event with
  | some e => e.is_valid_at timestamp
  | none => true

/-! ## Association-list model of Python dicts -/

/-- Lookup in an insertion-ordered association list (Python `d[k]` / `d.get(k)`). -/
def lookupD {β : Type} : List (String × β) → String → Option β
  | [], _ => none
  | (k, v) :: rest, key => if k = key then some v else lookupD rest key

/-- Python `d[k] = v`: overwrite in place if the key exists, else append.
This preserves Python dict insertion-order semantics. -/
def dictInsert {β : Type} : List (String × β) → String → β → List (String × β)
  | [], k, v => [(k, v)]
  | (k0, v0) :: rest, k, v =>
      if k0 = k then (k, v) :: rest else (k0, v0) :: dictInsert rest k v

/-- The keys of an association list, in order (Python `d.keys()`). -/
def keysOf {β : Type} (m : List (String × β)) : List String := m.map Prod.fst

/-- The values of an association list, in order (Python `d.values()`). -/
def valuesOf {β : Type} (m : List (String × β)) : List β := m.map Prod.snd

/-! ## Knowledge graph (models.py `KnowledgeGraph`) -/

/-- models.py `KnowledgeGraph`: statement map and entity index, both
insertion-ordered. -/
structure KnowledgeGraph where
  statements : List (String × Statement) := []
  entities : List (String × List String) := []
deriving DecidableEq

/-- The bucket of an entity in the entity index (`self.entities.get(e, [])`). -/
def bucketE (es : List (String × List String)) (e : String) : List String :=
  (lookupD es e).getD []

/-- One entity-index update from `add_statement`: create the bucket if missing,
then append the statement id if not already present. -/
def indexEntity (es : List (String × List String)) (ent : String) (sid : String) :
    List (String × List String) :=
  let bucket := bucketE es ent
  if sid ∈ bucket then dictInsert es ent bucket
  else dictInsert es ent (bucket ++ [sid])

/-- Index both the subject and the object of one triplet. -/
def indexTriplet (sid : String) (es : List (String × List String)) (tr : Triplet) :
    List (String × List String) :=
  indexEntity (indexEntity es tr.subject sid) tr.object sid

/-- models.py `KnowledgeGraph.add_statement`: store (or overwrite) by id and
index every triplet's subject and object. -/
def KnowledgeGraph.add_statement (g : KnowledgeGraph) (statement : Statement) :
    KnowledgeGraph :=
  { statements := dictInsert g.statements statement.id statement
    entities := statement.triplets.foldl (indexTriplet statement.id) g.entities }

/-- models.py `KnowledgeGraph.get_statements_for_entity`: resolve the bucket ids,
dropping ids missing from the statement map. -/
def KnowledgeGraph.get_statements_for_entity (g : KnowledgeGraph) (entity : String) :
    List Statement :=
  (bucketE g.entities entity).filterMap (fun sid => lookupD g.statements sid)

/-- models.py `KnowledgeGraph.get_valid_statements_at`. -/
def KnowledgeGraph.get_valid_statements_at (g : KnowledgeGraph) (timestamp : Nat) :
    List Statement :=
  (valuesOf g.statements).filter (fun s => s.is_valid_at timestamp)

/-- The record update performed by `invalidate_statement`:
`statements[statement_id].invalidated_by.append(invalidated_by_id)`. -/
def appendInvalidation (st : Statement) (byId : String) : Statement :=
  { st with invalidated_by := st.invalidated_by ++ [byId] }

/-- models.py `KnowledgeGraph.invalidate_statement`: append to `invalidated_by`
if the target exists, silently no-op otherwise. -/
def KnowledgeGraph.invalidate_statement (g : KnowledgeGraph)
    (statement_id : String) (invalidated_by_id : String) : KnowledgeGraph :=
  match lookupD g.statements statement_id with
  | none => g
  | some st =>
      { g with statements :=
          dictInsert g.statements statement_id (appendInvalidation st invalidated_by_id) }

/-- Whether a statement's triplets mention an entity as subject or object
(the condition under which `add_statement` indexes the statement there). -/
def mentionsB (st : Statement) (e : String) : Bool :=
  st.triplets.any fun tr => decide (tr.subject = e) || decide (tr.object = e)

/-! ## Timeline (models.py `KnowledgeGraph.get_timeline_for_entity`) -/

/-- The sort key used by `get_timeline_for_entity`:
`t_created or t_valid or datetime.min` (Python `or` on always-truthy datetimes),
with `datetime.min` modelled as `0`. -/
def timelineKey (st : Statement) : Nat :=
  match st.temporal_event with
  | some te =>
      match te.t_created with
      | some c => c
      | none =>
          match te.t_valid with
          | some v => v
          | none => 0
  | none => 0

/-- Stable insertion used to model Python `list.sort(key=...)`: an element is
placed before the first element whose key is not smaller, so equal-key elements
keep their input order. -/
def insertByKey (x : Statement) : List Statement → List Statement
  | [] => [x]
  | y :: ys =>
      if timelineKey x ≤ timelineKey y then x :: y :: ys else y :: insertByKey x ys

/-- Stable sort by `timelineKey` (the observable behaviour of Python's stable
`list.sort` with this key). -/
def sortByKey : List Statement → List Statement
  | [] => []
  | x :: xs => insertByKey x (sortByKey xs)

/-- models.py `KnowledgeGraph.get_timeline_for_entity`: keep the entity's
statements that carry a temporal event and sort them stably by `timelineKey`.
A timeline entry is a dict of fields copied from the statement; it is modelled
by the statement itself. -/
def KnowledgeGraph.get_timeline_for_entity (g : KnowledgeGraph) (entity : String) :
    List Statement :=
  sortByKey ((g.get_statements_for_entity entity).filter
    (fun s => s.temporal_event.isSome))

/-! ## Invalidation resolver (temporal_agent.py) -/

/-- The temporal guard inside `_statements_conflict`: both statements carry a
temporal event with a `t_created`, and the first one's is strictly later. -/
def created_after (e1 e2 : Option TemporalEvent) : Bool :=
  match e1, e2 with
  | some a, some b =>
      match a.t_created, b.t_created with
      | some c1, some c2 => decide (c2 < c1)
      | _, _ => false
  | _, _ => false

/-- temporal_agent.py `TemporalAgent._statements_conflict`: some triplet pair
agrees on subject and predicate, differs on object, and the temporal guard
holds for (stmt1, stmt2). -/
def TemporalAgent.statements_conflict (stmt1 stmt2 : Statement) : Bool :=
  stmt1.triplets.any fun t1 => stmt2.triplets.any fun t2 =>
    decide (t1.subject = t2.subject) && decide (t1.predicate = t2.predicate) &&
      !decide (t1.object = t2.object) &&
      created_after stmt1.temporal_event stmt2.temporal_event

/-- temporal_agent.py `TemporalAgent.check_invalidation`: ids of the existing
statements the new one conflicts with, in input order. -/
def TemporalAgent.check_invalidation (new_statement : Statement)
    (existing_statements : List Statement) : List String :=
  (existing_statements.filter
    (fun ex => TemporalAgent.statements_conflict new_statement ex)).map Statement.id

/-! ## Query planner (temporal_agent.py `TemporalQueryEngine.query`) -/

/-- models.py `TemporalQuery`. -/
structure TemporalQuery where
  entity : Option String := none
  predicate : Option String := none
  timestamp : Option Nat := none
  temporal_range : Option (Nat × Nat) := none
  question : Option String := none
deriving DecidableEq

/-- models.py `QueryResult`.  The `answer` text comes from the external
summarization collaborator and is outside the embedding; `answered` records
whether the question branch ran.  The constant placeholder `confidence` is not
modelled. -/
structure QueryResult where
  statements : List Statement := []
  timeline : List Statement := []
  answered : Bool := false
deriving DecidableEq

/-- Python truthiness of an optional string (`if query.entity:`): set and
non-empty. -/
def strOptTruthy : Option String → Bool
  | some s => !decide (s = "")
  | none => false

/-- Model of `t_valid or t_created` / `t_invalid or t_expired` (Python `or` on
always-truthy datetimes). -/
def orOpt (a b : Option Nat) : Option Nat :=
  match a with
  | some x => some x
  | none => b

/-- The per-statement test of the temporal-range branch of
`TemporalQueryEngine.query`: requires a temporal event, an effective start
(`t_valid or t_created`) that is `<= end_time`, and an effective end
(`t_invalid or t_expired`) absent or `>= start_time`. -/
def rangeOverlap (stmt : Statement) (start_time end_time : Nat) : Bool :=
  match stmt.temporal_event with
  | none => false
  | some te =>
      match orOpt te.t_valid te.t_created with
      | none => false
      | some stmt_start =>
          decide (stmt_start ≤ end_time) &&
            (match orOpt te.t_invalid te.t_expired with
             | none => true
             | some stmt_end => decide (start_time ≤ stmt_end))

/-- The entity branch of `query`. -/
def entityBranch (kg : KnowledgeGraph) (q : TemporalQuery) (ent : String) :
    QueryResult :=
  let statements0 := kg.get_statements_for_entity ent
  let statements :=
    match q.timestamp with
    | some ts => statements0.filter (fun s => s.is_valid_at ts)
    | none => statements0
  { statements := statements, timeline := kg.get_timeline_for_entity ent }

/-- The temporal-range branch of `query` (reached only when the entity field is
falsy, because the source uses `elif`). -/
def rangeBranch (kg : KnowledgeGraph) (q : TemporalQuery) : QueryResult :=
  match q.temporal_range with
  | some (start_time, end_time) =>
      { statements := (valuesOf kg.statements).filter
          (fun s => rangeOverlap s start_time end_time) }
  | none => {}

/-- temporal_agent.py `TemporalQueryEngine.query`: `if query.entity: ...
elif query.temporal_range: ...`, then an independent `if query.question:`
branch which only produces the answer text. -/
def TemporalQueryEngine.query (kg : KnowledgeGraph) (q : TemporalQuery) :
    QueryResult :=
  let res :=
    match q.entity with
    | some ent => if ent = "" then rangeBranch kg q else entityBranch kg q ent
    | none => rangeBranch kg q
  { res with answered := strOptTruthy q.question }

/-! ## Persistence (utils.py `KnowledgeGraphManager`) -/

/-- The persisted JSON layout: the statement map (a record is `none` when it
cannot be parsed back into a `Statement`, i.e. it is missing a required field,
which makes the source's `Statement(**stmt_data)` raise), and the persisted
entity index.  The `saved_at` metadata timestamp is not modelled.  The
ISO-8601 round trip of instants is the identity on the modelled `Nat`
instants. -/
structure PersistedState where
  statements : List (String × Option Statement) := []
  entities : List (String × List String) := []

/-- utils.py `KnowledgeGraphManager.save_to_file`. -/
def save_to_file (g : KnowledgeGraph) : PersistedState :=
  { statements := g.statements.map (fun p => (p.1, some p.2))
    entities := g.entities }

/-- The loading loop of `load_from_file`: re-run `add_statement` per record.
A malformed record raises, aborting the loop; the Bool is `false` when that
happened, and the returned graph is the store as the exception leaves it. -/
def loadRecords : KnowledgeGraph → List (String × Option Statement) →
    KnowledgeGraph × Bool
  | g, [] => (g, true)
  | g, (_, none) :: _ => (g, false)
  | g, (_, some st) :: rest => loadRecords (g.add_statement st) rest

/-- utils.py `KnowledgeGraphManager.load_from_file`: the manager's store is
replaced by a fresh empty graph *before* the loop, so the result never depends
on the prior store `g0`, and a mid-loop failure leaves the partially filled
replacement in place. -/
def load_from_file (_g0 : KnowledgeGraph) (data : PersistedState) :
    KnowledgeGraph × Bool :=
  loadRecords {} data.statements

/-! ## Invariants and reachability -/

/-- The entity-index consistency invariant: a bucket contains exactly the ids
of mapped statements whose triplets mention the entity (in particular every
indexed id is a key of the statement map). -/
def Inv (g : KnowledgeGraph) : Prop :=
  ∀ e sid, sid ∈ bucketE g.entities e ↔
    ∃ st, lookupD g.statements sid = some st ∧ mentionsB st e = true

/-- States reachable from the empty store by `add_statement` and
`invalidate_statement`. -/
inductive Reachable : KnowledgeGraph → Prop where
  | empty : Reachable {}
  | step_add (g : KnowledgeGraph) (st : Statement) :
      Reachable g → Reachable (g.add_statement st)
  | step_invalidate (g : KnowledgeGraph) (sid byId : String) :
      Reachable g → Reachable (g.invalidate_statement sid byId)

/-- States reachable when every added statement has a fresh id (no silent
overwrite). -/
inductive ReachableFresh : KnowledgeGraph → Prop where
  | empty : ReachableFresh {}
  | step_add (g : KnowledgeGraph) (st : Statement) :
      ReachableFresh g → lookupD g.statements st.id = none →
      ReachableFresh (g.add_statement st)
  | step_invalidate (g : KnowledgeGraph) (sid byId : String) :
      ReachableFresh g → ReachableFresh (g.invalidate_statement sid byId)

/-! ## Concrete data used by witnesses and counterexamples -/

/-- The empty knowledge graph. -/
def emptyKG : KnowledgeGraph := {}

/-- Spec example S1: `(TechCorp, hasCEO, John)` created 2020-01-01
(instant 20200101). -/
def stCeoJohn : Statement :=
  { id := "S1", text := "John is CEO", temporal_class := TemporalClass.dynamic
    triplets := [⟨"TechCorp", "hasCEO", "John"⟩]
    temporal_event := some { t_created := some 20200101 } }

/-- Spec example S2: `(TechCorp, hasCEO, Jane)` created 2024-01-01
(instant 20240101). -/
def stCeoJane : Statement :=
  { id := "S2", text := "Jane is CEO", temporal_class := TemporalClass.dynamic
    triplets := [⟨"TechCorp", "hasCEO", "Jane"⟩]
    temporal_event := some { t_created := some 20240101 } }

/-- First version of an overwritten statement: id `s1`, mentions A and B. -/
def stOverwriteA : Statement :=
  { id := "s1", text := "v1", temporal_class := TemporalClass.static
    triplets := [⟨"A", "p", "B"⟩] }

/-- Second version under the same id `s1`, now mentioning C and D only. -/
def stOverwriteB : Statement :=
  { id := "s1", text := "v2", temporal_class := TemporalClass.static
    triplets := [⟨"C", "p", "D"⟩] }

/-- A store with a stale entity-index entry: after re-adding id `s1` with
different triplets, bucket A still holds `s1` though the current record does
not mention A. -/
def gStale : KnowledgeGraph := (emptyKG.add_statement stOverwriteA).add_statement stOverwriteB

/-- A statement present before a failed load. -/
def stPrior : Statement :=
  { id := "p1", text := "prior fact", temporal_class := TemporalClass.static }

/-- A store holding `stPrior`, the state before a failed load. -/
def gPrior : KnowledgeGraph := emptyKG.add_statement stPrior

/-- A well-formed persisted record. -/
def stGood : Statement :=
  { id := "b", text := "good record", temporal_class := TemporalClass.static }

/-- Persisted state whose second record is missing a required field. -/
def badData : PersistedState :=
  { statements := [("b", some stGood), ("c", none)] }

/-- A statement used for round-trip and index witnesses. -/
def stW : Statement :=
  { id := "w1", text := "w", temporal_class := TemporalClass.dynamic
    triplets := [⟨"A", "has", "B"⟩]
    temporal_event := some { t_created := some 5 } }

/-- A one-statement store built with a fresh id. -/
def gW : KnowledgeGraph := emptyKG.add_statement stW

/-- A re-added statement reusing the id of `stW` with updated text. -/
def stW2 : Statement :=
  { id := "w1", text := "w updated", temporal_class := TemporalClass.dynamic
    triplets := [⟨"A", "has", "B"⟩]
    temporal_event := some { t_created := some 6 } }

/-- A statement valid from 2020-06-01 (instant 20200601) with no end. -/
def stFrom2020 : Statement :=
  { id := "r1", text := "valid from 2020-06-01", temporal_class := TemporalClass.dynamic
    triplets := [⟨"A", "p", "B"⟩]
    temporal_event := some { t_valid := some 20200601 } }

/-- A statement valid from 2022-06-01 (instant 20220601) onward. -/
def stFrom2022 : Statement :=
  { id := "r2", text := "valid from 2022-06-01", temporal_class := TemporalClass.dynamic
    triplets := [⟨"A", "p", "C"⟩]
    temporal_event := some { t_valid := some 20220601 } }

/-- A statement with no temporal event at all. -/
def stNoEvent : Statement :=
  { id := "r3", text := "no event", temporal_class := TemporalClass.atemporal
    triplets := [⟨"A", "q", "C"⟩] }

/-- A statement whose temporal event has neither `t_valid` nor `t_created`. -/
def stNoStart : Statement :=
  { id := "r4", text := "no effective start", temporal_class := TemporalClass.dynamic
    triplets := [⟨"A", "q", "D"⟩]
    temporal_event := some { t_invalid := some 30000101 } }

/-- A store exercising the time-range branch. -/
def kgRange : KnowledgeGraph :=
  (((emptyKG.add_statement stFrom2020).add_statement stFrom2022).add_statement
    stNoEvent).add_statement stNoStart

/-- The spec's example time-range query `[2021-01-01, 2022-01-01)`. -/
def qRange : TemporalQuery := { temporal_range := some (20210101, 20220101) }

/-- A query specifying both an entity and a temporal range. -/
def qBoth : TemporalQuery := { entity := some "A", temporal_range := some (0, 5) }

/-- C2: `isValidAt` holds iff (`validFrom` unset or `t >= validFrom`) and
(`validUntil` unset or `t < validUntil`) and (`expired` unset or `t < expired`);
in particular a set `validFrom` with `t < validFrom` forces `false`, and an
event with all four fields unset is valid at every instant. -/
theorem c2_is_valid_at_characterization :
    (∀ (e : TemporalEvent) (t : Nat),
      e.is_valid_at t = true ↔
        ((∀ v, e.t_valid = some v → v ≤ t) ∧
         (∀ v, e.t_invalid = some v → t < v) ∧
         (∀ v, e.t_expired = some v → t < v))) ∧
    (∀ (e : TemporalEvent) (t v : Nat), e.t_valid = some v → t < v →
      e.is_valid_at t = false) ∧
    (∀ t : Nat,
      TemporalEvent.is_valid_at ⟨none, none, none, none⟩ t = true) := by
  refine ⟨?_, ?_, ?_⟩
  · rintro ⟨c, x, v, i⟩ t
    cases v <;> cases i <;> cases x <;>
      (simp [TemporalEvent.is_valid_at]; try omega)
  · rintro ⟨c, x, v, i⟩ t w hv hlt
    cases v <;> cases i <;> cases x <;>
      (simp_all [TemporalEvent.is_valid_at]; try omega)
  · intro t
    simp [TemporalEvent.is_valid_at]

/-- Characterization of the temporal guard of the conflict check. -/
lemma created_after_eq_true (e1 e2 : Option TemporalEvent) :
    created_after e1 e2 = true ↔
      ∃ a b c1 c2, e1 = some a ∧ e2 = some b ∧
        a.t_created = some c1 ∧ b.t_created = some c2 ∧ c2 < c1 := by
  cases e1 with
  | none => simp [created_after]
  | some a =>
    cases e2 with
    | none => simp [created_after]
    | some b =>
      cases h1 : a.t_created <;> cases h2 : b.t_created <;>
        simp [created_after, h1, h2]

/-- Characterization of `_statements_conflict`: a conflicting triplet pair
exists and the temporal guard holds. -/
lemma statements_conflict_iff (s1 s2 : Statement) :
    TemporalAgent.statements_conflict s1 s2 = true ↔
      ((∃ t1 ∈ s1.triplets, ∃ t2 ∈ s2.triplets,
          t1.subject = t2.subject ∧ t1.predicate = t2.predicate ∧
          t1.object ≠ t2.object) ∧
        ∃ en ee cn ce, s1.temporal_event = some en ∧ s2.temporal_event = some ee ∧
          en.t_created = some cn ∧ ee.t_created = some ce ∧ ce < cn) := by
  simp only [TemporalAgent.statements_conflict, List.any_eq_true,
    Bool.and_eq_true, decide_eq_true_eq, Bool.not_eq_true',
    decide_eq_false_iff_not, created_after_eq_true]
  constructor
  · rintro ⟨t1, h1, t2, h2, ⟨⟨hs, hp⟩, ho⟩, en, ee, cn, ce, g1, g2, g3, g4, glt⟩
    exact ⟨⟨t1, h1, t2, h2, hs, hp, ho⟩, en, ee, cn, ce, g1, g2, g3, g4, glt⟩
  · rintro ⟨⟨t1, h1, t2, h2, hs, hp, ho⟩, en, ee, cn, ce, g1, g2, g3, g4, glt⟩
    exact ⟨t1, h1, t2, h2, ⟨⟨hs, hp⟩, ho⟩, en, ee, cn, ce, g1, g2, g3, g4, glt⟩

/-- C1: the invalidation resolver reports that `new` supersedes `existing`
iff some triplet pair agrees on subject and predicate but not object, both
statements carry a temporal event with a set `created`, and the new created
instant is strictly later; consequently the check is asymmetric. -/
theorem c1_conflict_characterization :
    ∀ (new_statement existing : Statement),
      (TemporalAgent.statements_conflict new_statement existing = true ↔
        ((∃ t1 ∈ new_statement.triplets, ∃ t2 ∈ existing.triplets,
            t1.subject = t2.subject ∧ t1.predicate = t2.predicate ∧
            t1.object ≠ t2.object) ∧
          ∃ en ee cn ce, new_statement.temporal_event = some en ∧
            existing.temporal_event = some ee ∧
            en.t_created = some cn ∧ ee.t_created = some ce ∧ ce < cn)) ∧
      (TemporalAgent.statements_conflict new_statement existing = true →
        TemporalAgent.statements_conflict existing new_statement = false) := by
  intro n ex
  refine ⟨statements_conflict_iff n ex, ?_⟩
  intro h
  obtain ⟨-, en, ee, cn, ce, h1, h2, h3, h4, hlt⟩ :=
    (statements_conflict_iff n ex).mp h
  by_contra hne
  obtain ⟨-, en1, ee1, cn1, ce1, g1, g2, g3, g4, glt⟩ :=
    (statements_conflict_iff ex n).mp (Bool.not_eq_false _ |>.mp hne)
  rw [h2] at g1
  rw [h1] at g2
  obtain rfl := Option.some.inj g1
  obtain rfl := Option.some.inj g2
  rw [h4] at g3
  rw [h3] at g4
  obtain rfl := Option.some.inj g3
  obtain rfl := Option.some.inj g4
  omega

/-- C1 witness: the spec's example, `conflict(S2, S1)` true and the reversed
call false. -/
theorem c1_witness :
    TemporalAgent.statements_conflict stCeoJane stCeoJohn = true ∧
    TemporalAgent.statements_conflict stCeoJohn stCeoJane = false :=
  ⟨by decide, (c1_conflict_characterization stCeoJane stCeoJohn).2 (by decide)⟩

/-- C7: a stored statement is in the time-range result iff its effective start
(`t_valid` else `t_created`) is at most the range end and its effective end
(`t_invalid` else `t_expired`) is absent or at least the range start. -/
theorem c7_time_range_query :
    ∀ (kg : KnowledgeGraph) (q : TemporalQuery) (start_time end_time : Nat)
      (s : Statement) (te : TemporalEvent) (es : Nat),
      q.entity = none → q.temporal_range = some (start_time, end_time) →
      s.temporal_event = some te → orOpt te.t_valid te.t_created = some es →
      s ∈ valuesOf kg.statements →
      (s ∈ (TemporalQueryEngine.query kg q).statements ↔
        (es ≤ end_time ∧
          (orOpt te.t_invalid te.t_expired = none ∨
            ∃ ee, orOpt te.t_invalid te.t_expired = some ee ∧ start_time ≤ ee))) := by
  intro kg q start_time end_time s te es hent htr hte hes hmem
  simp only [TemporalQueryEngine.query, hent, rangeBranch, htr]
  rw [List.mem_filter]
  simp only [hmem, true_and]
  simp only [rangeOverlap, hte, hes]
  cases hee : orOpt te.t_invalid te.t_expired with
  | none => simp [hee]
  | some ee => simp [hee]

/-- C7 witness: the range `[2021-01-01, 2022-01-01)` includes the statement
valid from 2020-06-01 with no end and excludes the one valid from
2022-06-01. -/
theorem c7_witness :
    (stFrom2020 ∈ (TemporalQueryEngine.query kgRange qRange).statements ↔
      (20200601 ≤ 20220101 ∧
        ((none : Option Nat) = none ∨
          ∃ ee, (none : Option Nat) = some ee ∧ 20210101 ≤ ee))) ∧
    (stFrom2022 ∈ (TemporalQueryEngine.query kgRange qRange).statements ↔
      (20220601 ≤ 20220101 ∧
        ((none : Option Nat) = none ∨
          ∃ ee, (none : Option Nat) = some ee ∧ 20210101 ≤ ee))) := by
  constructor
  · exact c7_time_range_query kgRange qRange 20210101 20220101 stFrom2020
      ({ t_valid := some 20200601 }) 20200601 rfl rfl rfl rfl (by decide)
  · exact c7_time_range_query kgRange qRange 20210101 20220101 stFrom2022
      ({ t_valid := some 20220601 }) 20220601 rfl rfl rfl rfl (by decide)

/-- C10: a statement with no temporal event, or whose temporal event has
neither `t_valid` nor `t_created`, never appears in a time-range result. -/
theorem c10_no_effective_start_excluded :
    ∀ (kg : KnowledgeGraph) (q : TemporalQuery) (start_time end_time : Nat)
      (s : Statement),
      q.entity = none → q.temporal_range = some (start_time, end_time) →
      (s.temporal_event = none ∨
        ∃ te, s.temporal_event = some te ∧ orOpt te.t_valid te.t_created = none) →
      s ∉ (TemporalQueryEngine.query kg q).statements := by
  intro kg q start_time end_time s hent htr hcase hmem
  simp only [TemporalQueryEngine.query, hent, rangeBranch, htr] at hmem
  rw [List.mem_filter] at hmem
  rcases hcase with hnone | ⟨te, hte, hstart⟩
  · simp [rangeOverlap, hnone] at hmem
  · simp [rangeOverlap, hte, hstart] at hmem

/-- C10 witness: the eventless statement and the start-less statement are both
excluded from the example range query. -/
theorem c10_witness :
    stNoEvent ∉ (TemporalQueryEngine.query kgRange qRange).statements ∧
    stNoStart ∉ (TemporalQueryEngine.query kgRange qRange).statements := by
  constructor
  · exact c10_no_effective_start_excluded kgRange qRange 20210101 20220101
      stNoEvent rfl rfl (Or.inl rfl)
  · exact c10_no_effective_start_excluded kgRange qRange 20210101 20220101
      stNoStart rfl rfl (Or.inr ⟨{ t_invalid := some 30000101 }, rfl, rfl⟩)

/-- C9 counterexample: a query carrying both an entity and a temporal range
returns a statement that fails the time-range test, so the planner did not
apply both filters — the range is ignored when an entity is given. -/
theorem c9_counterexample :
    stFrom2020 ∈ (TemporalQueryEngine.query kgRange qBoth).statements ∧
    rangeOverlap stFrom2020 0 5 = false := by
  constructor
  · decide
  · decide

/-- C9 amended: the entity branch takes precedence — when a non-empty entity is
given, the query result is independent of the temporal range field. -/
theorem c9_amended :
    ∀ (kg : KnowledgeGraph) (q : TemporalQuery) (ent : String),
      q.entity = some ent → ent ≠ "" →
      TemporalQueryEngine.query kg q =
        TemporalQueryEngine.query kg { q with temporal_range := none } := by
  intro kg q ent hent hne
  simp [TemporalQueryEngine.query, hent, hne, entityBranch]

/-- C9 amended witness: the combined example query equals the same query with
the range removed. -/
theorem c9_amended_witness :
    TemporalQueryEngine.query kgRange qBoth =
      TemporalQueryEngine.query kgRange { qBoth with temporal_range := none } :=
  c9_amended kgRange qBoth "A" rfl (by decide)

/-- Inserting by key is a permutation of consing. -/
lemma perm_insertByKey (x : Statement) (l : List Statement) :
    List.Perm (insertByKey x l) (x :: l) := by
  induction l with
  | nil => exact List.Perm.refl _
  | cons y ys ih =>
    rw [insertByKey]
    by_cases h : timelineKey x ≤ timelineKey y
    · rw [if_pos h]
    · rw [if_neg h]
      exact (ih.cons y).trans (List.Perm.swap x y ys)

/-- Inserting by key preserves sortedness by key. -/
lemma pairwise_insertByKey (x : Statement) (l : List Statement)
    (hl : l.Pairwise (fun a b => timelineKey a ≤ timelineKey b)) :
    (insertByKey x l).Pairwise (fun a b => timelineKey a ≤ timelineKey b) := by
  induction l with
  | nil => simp [insertByKey]
  | cons y ys ih =>
    rw [insertByKey]
    rcases List.pairwise_cons.mp hl with ⟨hy, hys⟩
    by_cases h : timelineKey x ≤ timelineKey y
    · rw [if_pos h]
      refine List.pairwise_cons.mpr ⟨?_, hl⟩
      intro z hz
      rcases List.mem_cons.mp hz with rfl | hz2
      · exact h
      · exact le_trans h (hy z hz2)
    · rw [if_neg h]
      refine List.pairwise_cons.mpr ⟨?_, ih hys⟩
      intro z hz
      rcases List.mem_cons.mp ((perm_insertByKey x ys).mem_iff.mp hz) with rfl | hz2
      · omega
      · exact hy z hz2

/-- How insertion interacts with filtering on one key value: the inserted
element lands in front of the equal-key elements already present. -/
lemma filter_insertByKey (x : Statement) (l : List Statement) (k : Nat) :
    (insertByKey x l).filter (fun s => decide (timelineKey s = k)) =
      if timelineKey x = k
      then x :: l.filter (fun s => decide (timelineKey s = k))
      else l.filter (fun s => decide (timelineKey s = k)) := by
  induction l with
  | nil => by_cases hx : timelineKey x = k <;> simp [insertByKey, hx]
  | cons y ys ih =>
    rw [insertByKey]
    by_cases h : timelineKey x ≤ timelineKey y
    · rw [if_pos h]
      by_cases hx : timelineKey x = k <;> simp [List.filter_cons, hx]
    · rw [if_neg h]
      by_cases hx : timelineKey x = k
      · have hyk : ¬(timelineKey y = k) := by omega
        simp [List.filter_cons, hyk, ih, hx]
      · by_cases hy : timelineKey y = k <;>
          simp [List.filter_cons, hy, ih, hx]

/-- The stable sort is a permutation of its input. -/
lemma perm_sortByKey (l : List Statement) : List.Perm (sortByKey l) l := by
  induction l with
  | nil => exact List.Perm.refl _
  | cons x xs ih =>
    rw [sortByKey]
    exact (perm_insertByKey x (sortByKey xs)).trans (ih.cons x)

/-- The stable sort is sorted (non-decreasing in the key). -/
lemma pairwise_sortByKey (l : List Statement) :
    (sortByKey l).Pairwise (fun a b => timelineKey a ≤ timelineKey b) := by
  induction l with
  | nil => simp [sortByKey]
  | cons x xs ih =>
    rw [sortByKey]
    exact pairwise_insertByKey x (sortByKey xs) ih

/-- Stability: restricted to any one key value, the sort is the identity. -/
lemma filter_sortByKey (l : List Statement) (k : Nat) :
    (sortByKey l).filter (fun s => decide (timelineKey s = k)) =
      l.filter (fun s => decide (timelineKey s = k)) := by
  induction l with
  | nil => rfl
  | cons x xs ih =>
    rw [sortByKey, filter_insertByKey]
    by_cases hx : timelineKey x = k <;> simp [List.filter_cons, hx, ih]

/-- C6: the timeline consists of exactly the entity's statements that carry a
temporal event, ordered non-decreasingly by the key
(`t_created` else `t_valid` else the minimum instant), and equal-key entries
keep their original relative (insertion) order: on every key value the output
restricts to exactly the input sequence. -/
theorem c6_timeline_sorted_stable :
    ∀ (g : KnowledgeGraph) (e : String),
      List.Perm (g.get_timeline_for_entity e)
        ((g.get_statements_for_entity e).filter (fun s => s.temporal_event.isSome)) ∧
      (g.get_timeline_for_entity e).Pairwise
        (fun a b => timelineKey a ≤ timelineKey b) ∧
      ∀ k, (g.get_timeline_for_entity e).filter (fun s => decide (timelineKey s = k)) =
        ((g.get_statements_for_entity e).filter
          (fun s => s.temporal_event.isSome)).filter
            (fun s => decide (timelineKey s = k)) := by
  intro g e
  refine ⟨?_, ?_, ?_⟩
  · exact perm_sortByKey _
  · exact pairwise_sortByKey _
  · intro k
    exact filter_sortByKey _ k

/-- Lookup after overwrite at the same key. -/
lemma lookupD_dictInsert_self {β : Type} (m : List (String × β)) (k : String) (v : β) :
    lookupD (dictInsert m k v) k = some v := by
  induction m with
  | nil => simp [dictInsert, lookupD]
  | cons p rest ih =>
    obtain ⟨k0, v0⟩ := p
    rw [dictInsert]
    by_cases h : k0 = k
    · rw [if_pos h]
      simp [lookupD]
    · rw [if_neg h]
      simp [lookupD, h, ih]

/-- Lookup at a different key is unchanged by insertion. -/
lemma lookupD_dictInsert_ne {β : Type} (m : List (String × β)) (k : String) (v : β)
    (k1 : String) (h : k ≠ k1) :
    lookupD (dictInsert m k v) k1 = lookupD m k1 := by
  induction m with
  | nil => simp [dictInsert, lookupD, h]
  | cons p rest ih =>
    obtain ⟨k0, v0⟩ := p
    rw [dictInsert]
    by_cases h0 : k0 = k
    · rw [if_pos h0]
      simp [lookupD, h, h0]
    · rw [if_neg h0]
      simp [lookupD, ih]

/-- Unfolding lemma for the keys of the empty association list. -/
@[simp] lemma keysOf_nil {β : Type} : keysOf ([] : List (String × β)) = [] := rfl

/-- Unfolding lemma for the keys of a non-empty association list. -/
@[simp] lemma keysOf_cons {β : Type} (p : String × β) (m : List (String × β)) :
    keysOf (p :: m) = p.1 :: keysOf m := rfl

/-- Overwriting an existing key does not change the key sequence. -/
lemma keysOf_dictInsert_mem {β : Type} (m : List (String × β)) (k : String) (v : β)
    (h : k ∈ keysOf m) : keysOf (dictInsert m k v) = keysOf m := by
  induction m with
  | nil => simp at h
  | cons p rest ih =>
    obtain ⟨k0, v0⟩ := p
    rw [dictInsert]
    by_cases h0 : k0 = k
    · rw [if_pos h0]
      simp [h0]
    · rw [if_neg h0]
      have h1 : k ∈ keysOf rest := by
        rw [keysOf_cons, List.mem_cons] at h
        rcases h with h | h
        · exact absurd h.symm h0
        · exact h
      rw [keysOf_cons, keysOf_cons, ih h1]

/-- Inserting a fresh key appends the binding at the end. -/
lemma dictInsert_notMem {β : Type} (m : List (String × β)) (k : String) (v : β)
    (h : k ∉ keysOf m) : dictInsert m k v = m ++ [(k, v)] := by
  induction m with
  | nil => simp [dictInsert]
  | cons p rest ih =>
    obtain ⟨k0, v0⟩ := p
    rw [dictInsert]
    rw [keysOf_cons, List.mem_cons] at h
    push_neg at h
    rw [if_neg (fun hh => h.1 hh.symm)]
    rw [ih h.2]
    simp

/-- Key membership after insertion. -/
lemma mem_keysOf_dictInsert {β : Type} (m : List (String × β)) (k : String) (v : β)
    (x : String) : x ∈ keysOf (dictInsert m k v) ↔ x ∈ keysOf m ∨ x = k := by
  induction m with
  | nil => simp [dictInsert, keysOf, eq_comm]
  | cons p rest ih =>
    obtain ⟨k0, v0⟩ := p
    rw [dictInsert]
    by_cases h0 : k0 = k
    · subst h0
      simp [keysOf, eq_comm]
      tauto
    · rw [if_neg h0]
      simp [keysOf] at ih ⊢
      tauto

/-- A successful lookup exhibits a binding of the list. -/
lemma mem_of_lookupD_eq_some {β : Type} {m : List (String × β)} {k : String} {v : β}
    (h : lookupD m k = some v) : (k, v) ∈ m := by
  induction m with
  | nil => simp [lookupD] at h
  | cons p rest ih =>
    obtain ⟨k0, v0⟩ := p
    rw [lookupD] at h
    by_cases h0 : k0 = k
    · rw [if_pos h0] at h
      obtain rfl := Option.some.inj h
      subst h0
      exact List.mem_cons_self _ _
    · rw [if_neg h0] at h
      exact List.mem_cons_of_mem _ (ih h)

/-- A successful lookup means the key occurs. -/
lemma mem_keysOf_of_lookupD {β : Type} {m : List (String × β)} {k : String} {v : β}
    (h : lookupD m k = some v) : k ∈ keysOf m :=
  List.mem_map_of_mem Prod.fst (mem_of_lookupD_eq_some h)

/-- With duplicate-free keys, membership determines the lookup. -/
lemma lookupD_of_mem_nodup {β : Type} {m : List (String × β)} {k : String} {v : β}
    (hn : (keysOf m).Nodup) (h : (k, v) ∈ m) : lookupD m k = some v := by
  induction m with
  | nil => simp at h
  | cons p rest ih =>
    obtain ⟨k0, v0⟩ := p
    rw [keysOf_cons, List.nodup_cons] at hn
    rw [lookupD]
    rcases List.mem_cons.mp h with h1 | h1
    · injection h1 with h1a h1b
      subst h1a
      subst h1b
      simp
    · by_cases h0 : k0 = k
      · subst h0
        exact absurd (List.mem_map_of_mem Prod.fst h1) hn.1
      · rw [if_neg h0]
        exact ih hn.2 h1

/-- Unfolding of `mentionsB` to an existential over the triplets. -/
lemma mentionsB_eq_true_iff (st : Statement) (e : String) :
    mentionsB st e = true ↔ ∃ tr ∈ st.triplets, tr.subject = e ∨ tr.object = e := by
  simp [mentionsB, List.any_eq_true]

/-- Bucket membership after one `indexEntity` step. -/
lemma mem_bucketE_indexEntity (es : List (String × List String)) (ent sid0 e sid : String) :
    sid ∈ bucketE (indexEntity es ent sid0) e ↔
      sid ∈ bucketE es e ∨ (sid = sid0 ∧ e = ent) := by
  simp only [indexEntity]
  by_cases hmem : sid0 ∈ bucketE es ent
  · rw [if_pos hmem]
    by_cases he : ent = e
    · subst he
      simp only [bucketE, lookupD_dictInsert_self, Option.getD_some]
      constructor
      · exact fun h => Or.inl h
      · rintro (h | ⟨rfl, -⟩)
        · exact h
        · exact hmem
    · have hne : e ≠ ent := fun hh => he hh.symm
      simp only [bucketE, lookupD_dictInsert_ne _ _ _ _ he]
      simp [hne]
  · rw [if_neg hmem]
    by_cases he : ent = e
    · subst he
      simp only [bucketE, lookupD_dictInsert_self, Option.getD_some, List.mem_append,
        List.mem_singleton]
      tauto
    · have hne : e ≠ ent := fun hh => he hh.symm
      simp only [bucketE, lookupD_dictInsert_ne _ _ _ _ he]
      simp [hne]

/-- Bucket membership after indexing one triplet. -/
lemma mem_bucketE_indexTriplet (sid0 : String) (es : List (String × List String))
    (tr : Triplet) (e sid : String) :
    sid ∈ bucketE (indexTriplet sid0 es tr) e ↔
      sid ∈ bucketE es e ∨ (sid = sid0 ∧ (tr.subject = e ∨ tr.object = e)) := by
  simp only [indexTriplet, mem_bucketE_indexEntity]
  constructor
  · rintro ((h | ⟨rfl, rfl⟩) | ⟨rfl, rfl⟩) <;> tauto
  · rintro (h | ⟨rfl, rfl | rfl⟩) <;> tauto

/-- Bucket membership after indexing a whole triplet list. -/
lemma mem_bucketE_foldIndex (sid0 : String) (trs : List Triplet)
    (es : List (String × List String)) (e sid : String) :
    sid ∈ bucketE (trs.foldl (indexTriplet sid0) es) e ↔
      sid ∈ bucketE es e ∨
        (sid = sid0 ∧ ∃ tr ∈ trs, tr.subject = e ∨ tr.object = e) := by
  induction trs generalizing es with
  | nil => simp
  | cons tr trs ih =>
    rw [List.foldl_cons, ih, mem_bucketE_indexTriplet]
    constructor
    · rintro ((h | ⟨rfl, h⟩) | ⟨rfl, tr1, h1, h2⟩)
      · exact Or.inl h
      · exact Or.inr ⟨rfl, tr, List.mem_cons_self _ _, h⟩
      · exact Or.inr ⟨rfl, tr1, List.mem_cons_of_mem _ h1, h2⟩
    · rintro (h | ⟨rfl, tr1, h1, h2⟩)
      · exact Or.inl (Or.inl h)
      · rcases List.mem_cons.mp h1 with rfl | h3
        · exact Or.inl (Or.inr ⟨rfl, h2⟩)
        · exact Or.inr ⟨rfl, tr1, h3, h2⟩

/-- Bucket membership after `add_statement`: the old bucket plus the new id
wherever the statement mentions the entity. -/
lemma mem_bucket_add (g : KnowledgeGraph) (st : Statement) (e sid : String) :
    sid ∈ bucketE (g.add_statement st).entities e ↔
      sid ∈ bucketE g.entities e ∨ (sid = st.id ∧ mentionsB st e = true) := by
  rw [KnowledgeGraph.add_statement, mem_bucketE_foldIndex, mentionsB_eq_true_iff]

/-- The step `indexEntity` keeps every bucket duplicate-free. -/
lemma nodup_bucketE_indexEntity (es : List (String × List String)) (ent sid0 : String)
    (h : ∀ x, (bucketE es x).Nodup) :
    ∀ x, (bucketE (indexEntity es ent sid0) x).Nodup := by
  intro x
  simp only [indexEntity]
  by_cases hmem : sid0 ∈ bucketE es ent
  · rw [if_pos hmem]
    by_cases he : ent = x
    · subst he
      simp only [bucketE, lookupD_dictInsert_self, Option.getD_some]
      exact h ent
    · simp only [bucketE, lookupD_dictInsert_ne _ _ _ _ he]
      exact h x
  · rw [if_neg hmem]
    by_cases he : ent = x
    · subst he
      simp only [bucketE, lookupD_dictInsert_self, Option.getD_some]
      rw [List.nodup_append]
      refine ⟨h ent, List.nodup_singleton _, ?_⟩
      intro a ha hb
      rw [List.mem_singleton] at hb
      subst hb
      exact hmem ha
    · simp only [bucketE, lookupD_dictInsert_ne _ _ _ _ he]
      exact h x

/-- Indexing a triplet list keeps every bucket duplicate-free. -/
lemma nodup_bucketE_foldIndex (sid0 : String) (trs : List Triplet)
    (es : List (String × List String)) (h : ∀ x, (bucketE es x).Nodup) :
    ∀ x, (bucketE (trs.foldl (indexTriplet sid0) es) x).Nodup := by
  induction trs generalizing es with
  | nil => exact h
  | cons tr trs ih =>
    rw [List.foldl_cons]
    exact ih _ (nodup_bucketE_indexEntity _ _ _ (nodup_bucketE_indexEntity _ _ _ h))

/-- The operation `add_statement` keeps every bucket duplicate-free. -/
lemma nodup_bucket_add (g : KnowledgeGraph) (st : Statement)
    (h : ∀ x, (bucketE g.entities x).Nodup) :
    ∀ x, (bucketE (g.add_statement st).entities x).Nodup :=
  nodup_bucketE_foldIndex st.id st.triplets g.entities h

/-- A duplicate-free list of strings contains each element at most once. -/
lemma count_le_one_of_nodup : ∀ (l : List String), l.Nodup → ∀ a, l.count a ≤ 1 := by
  intro l
  induction l with
  | nil => intro _ a; simp
  | cons b l ih =>
    intro hn a
    rcases List.nodup_cons.mp hn with ⟨hb, hl⟩
    rw [List.count_cons]
    by_cases hab : a = b
    · subst hab
      have h0 : l.count a = 0 := List.count_eq_zero.mpr hb
      simp [h0]
    · have hba : ¬(b = a) := fun hh => hab hh.symm
      simp [hba, ih hl a]

/-- If every stored bucket is duplicate-free, every bucket lookup is. -/
lemma nodup_bucketE_of_forall (es : List (String × List String))
    (h : ∀ p ∈ es, (Prod.snd p).Nodup) : ∀ e, (bucketE es e).Nodup := by
  intro e
  rw [bucketE]
  cases hl : lookupD es e with
  | none => simp
  | some b =>
    rw [Option.getD_some]
    exact h (e, b) (mem_of_lookupD_eq_some hl)

/-- C8: re-adding a statement whose id is already stored overwrites the record
for that id, adds no new key to the statement map, and (in any state whose
buckets are duplicate-free, as every reachable state is) leaves every entity
bucket containing the id at most once. -/
theorem c8_readd_overwrites :
    ∀ (g : KnowledgeGraph) (st : Statement),
      st.id ∈ keysOf g.statements →
      (∀ e, (bucketE g.entities e).Nodup) →
      lookupD (g.add_statement st).statements st.id = some st ∧
      keysOf (g.add_statement st).statements = keysOf g.statements ∧
      ∀ e, (bucketE (g.add_statement st).entities e).count st.id ≤ 1 := by
  intro g st hmem hnd
  refine ⟨lookupD_dictInsert_self _ _ _, keysOf_dictInsert_mem _ _ _ hmem, ?_⟩
  intro e
  exact count_le_one_of_nodup _ (nodup_bucket_add g st hnd e) st.id

/-- C8 witness: re-adding id `w1` into the one-statement store. -/
theorem c8_witness :
    lookupD (gW.add_statement stW2).statements stW2.id = some stW2 ∧
    keysOf (gW.add_statement stW2).statements = keysOf gW.statements ∧
    (bucketE (gW.add_statement stW2).entities "A").count stW2.id ≤ 1 := by
  have h := c8_readd_overwrites gW stW2 (by decide)
    (nodup_bucketE_of_forall _ (by decide))
  exact ⟨h.1, h.2.1, h.2.2 "A"⟩

/-- The empty store satisfies the index-consistency invariant. -/
lemma inv_empty : Inv {} := by
  intro e sid
  simp [bucketE, lookupD]

/-- Adding a statement under a fresh id preserves index consistency. -/
lemma inv_add_fresh (g : KnowledgeGraph) (st : Statement) (hinv : Inv g)
    (hfresh : lookupD g.statements st.id = none) : Inv (g.add_statement st) := by
  intro e sid
  rw [mem_bucket_add]
  have hstmts : (g.add_statement st).statements = dictInsert g.statements st.id st := rfl
  constructor
  · rintro (hmem | ⟨rfl, hment⟩)
    · obtain ⟨st0, hl, hm⟩ := (hinv e sid).mp hmem
      by_cases hid : sid = st.id
      · subst hid
        rw [hfresh] at hl
        cases hl
      · refine ⟨st0, ?_, hm⟩
        rw [hstmts, lookupD_dictInsert_ne _ _ _ _ (fun hh => hid hh.symm)]
        exact hl
    · exact ⟨st, by rw [hstmts]; exact lookupD_dictInsert_self _ _ _, hment⟩
  · rintro ⟨st0, hl, hm⟩
    by_cases hid : sid = st.id
    · subst hid
      rw [hstmts, lookupD_dictInsert_self] at hl
      obtain rfl := Option.some.inj hl
      exact Or.inr ⟨rfl, hm⟩
    · rw [hstmts, lookupD_dictInsert_ne _ _ _ _ (fun hh => hid hh.symm)] at hl
      exact Or.inl ((hinv e sid).mpr ⟨st0, hl, hm⟩)

/-- Invalidation on a missing id is the identity. -/
lemma invalidate_none (g : KnowledgeGraph) (sid0 byId : String)
    (h : lookupD g.statements sid0 = none) :
    g.invalidate_statement sid0 byId = g := by
  simp only [KnowledgeGraph.invalidate_statement, h]

/-- The statement map after invalidating an existing id. -/
lemma invalidate_statements_some (g : KnowledgeGraph) (sid0 byId : String)
    (st : Statement) (h : lookupD g.statements sid0 = some st) :
    (g.invalidate_statement sid0 byId).statements =
      dictInsert g.statements sid0 (appendInvalidation st byId) := by
  simp only [KnowledgeGraph.invalidate_statement, h]

/-- Invalidation never touches the entity index. -/
lemma invalidate_entities (g : KnowledgeGraph) (sid0 byId : String) :
    (g.invalidate_statement sid0 byId).entities = g.entities := by
  rw [KnowledgeGraph.invalidate_statement]
  cases lookupD g.statements sid0 with
  | none => rfl
  | some st => rfl

/-- The update `appendInvalidation` changes no triplets, hence no mentions. -/
lemma mentionsB_appendInvalidation (st : Statement) (byId : String) (e : String) :
    mentionsB (appendInvalidation st byId) e = mentionsB st e := rfl

/-- Invalidation preserves index consistency (it changes no triplets and no
buckets). -/
lemma inv_invalidate (g : KnowledgeGraph) (sid0 byId : String) (hinv : Inv g) :
    Inv (g.invalidate_statement sid0 byId) := by
  intro e sid
  rw [invalidate_entities]
  cases hl : lookupD g.statements sid0 with
  | none =>
    rw [invalidate_none g sid0 byId hl]
    exact hinv e sid
  | some st =>
    rw [invalidate_statements_some g sid0 byId st hl]
    rw [hinv e sid]
    constructor
    · rintro ⟨st0, hl0, hm⟩
      by_cases hid : sid = sid0
      · subst hid
        rw [hl0] at hl
        obtain rfl := Option.some.inj hl
        refine ⟨appendInvalidation st0 byId, lookupD_dictInsert_self _ _ _, ?_⟩
        rw [mentionsB_appendInvalidation]
        exact hm
      · refine ⟨st0, ?_, hm⟩
        rw [lookupD_dictInsert_ne _ _ _ _ (fun hh => hid hh.symm)]
        exact hl0
    · rintro ⟨st0, hl0, hm⟩
      by_cases hid : sid = sid0
      · subst hid
        rw [lookupD_dictInsert_self] at hl0
        obtain rfl := Option.some.inj hl0
        refine ⟨st, hl, ?_⟩
        rw [mentionsB_appendInvalidation] at hm
        exact hm
      · rw [lookupD_dictInsert_ne _ _ _ _ (fun hh => hid hh.symm)] at hl0
        exact ⟨st0, hl0, hm⟩

/-- Every fresh-id-reachable state is index-consistent. -/
lemma inv_of_reachableFresh : ∀ g : KnowledgeGraph, ReachableFresh g → Inv g := by
  intro g h
  induction h with
  | empty => exact inv_empty
  | step_add g st _ hfresh ih => exact inv_add_fresh g st ih hfresh
  | step_invalidate g sid byId _ ih => exact inv_invalidate g sid byId ih

/-- In every reachable state, each indexed id is a key of the statement map. -/
lemma bucket_ids_in_map_of_reachable :
    ∀ g : KnowledgeGraph, Reachable g →
      ∀ e sid, sid ∈ bucketE g.entities e → sid ∈ keysOf g.statements := by
  intro g h
  induction h with
  | empty => intro e sid h0; simp [bucketE, lookupD] at h0
  | step_add g st _ ih =>
    intro e sid hmem
    have hstmts : (g.add_statement st).statements = dictInsert g.statements st.id st := rfl
    rw [hstmts, mem_keysOf_dictInsert]
    rcases (mem_bucket_add g st e sid).mp hmem with hmem2 | ⟨rfl, -⟩
    · exact Or.inl (ih e sid hmem2)
    · exact Or.inr rfl
  | step_invalidate g sid0 byId _ ih =>
    intro e sid hmem
    rw [invalidate_entities] at hmem
    have hm2 := ih e sid hmem
    cases hl : lookupD g.statements sid0 with
    | none =>
      rw [invalidate_none g sid0 byId hl]
      exact hm2
    | some st =>
      rw [invalidate_statements_some g sid0 byId st hl, mem_keysOf_dictInsert]
      exact Or.inl hm2

/-- C5 amended: in every reachable state every indexed id exists in the
statement map; and in every state reachable without id collisions the entity
index holds exactly the ids of mapped statements mentioning the entity. -/
theorem c5_index_invariant :
    ∀ g : KnowledgeGraph,
      (Reachable g →
        ∀ e sid, sid ∈ bucketE g.entities e → sid ∈ keysOf g.statements) ∧
      (ReachableFresh g →
        ∀ e sid, sid ∈ bucketE g.entities e ↔
          ∃ st, lookupD g.statements sid = some st ∧ mentionsB st e = true) := by
  intro g
  exact ⟨bucket_ids_in_map_of_reachable g, fun h => inv_of_reachableFresh g h⟩

/-- C5 witness: both invariant parts at the concrete one-statement store. -/
theorem c5_witness :
    ("w1" ∈ bucketE gW.entities "A" → "w1" ∈ keysOf gW.statements) ∧
    ("w1" ∈ bucketE gW.entities "A" ↔
      ∃ st, lookupD gW.statements "w1" = some st ∧ mentionsB st "A" = true) := by
  have hfresh := ReachableFresh.step_add emptyKG stW ReachableFresh.empty rfl
  have h := c5_index_invariant gW
  exact ⟨h.1 (Reachable.step_add emptyKG stW Reachable.empty) "A" "w1",
    h.2 hfresh "A" "w1"⟩

/-- C5 counterexample: after re-adding id `s1` with different triplets, the
store is reachable yet bucket A holds an id whose current record does not
mention A — the index is not derived solely from the current triplets. -/
theorem c5_counterexample :
    Reachable gStale ∧
    ¬(∀ e sid, sid ∈ bucketE gStale.entities e ↔
        ∃ st, lookupD gStale.statements sid = some st ∧ mentionsB st e = true) := by
  constructor
  · exact Reachable.step_add _ stOverwriteB (Reachable.step_add _ stOverwriteA Reachable.empty)
  · intro h
    have h1 : "s1" ∈ bucketE gStale.entities "A" := by decide
    obtain ⟨st, hl, hm⟩ := (h "A" "s1").mp h1
    have h2 : lookupD gStale.statements "s1" = some stOverwriteB := by decide
    rw [h2] at hl
    obtain rfl := Option.some.inj hl
    exact absurd hm (by decide)

/-- C3: the source raises on a malformed record (the loop stops and the error
propagates), but only after having replaced the store and added the records
before the failure: the failed load leaves a partially populated store and
loses the prior contents, contradicting the specified all-or-nothing
behaviour. -/
theorem c3_failed_load_partially_populates :
    (load_from_file gPrior badData).2 = false ∧
    (load_from_file gPrior badData).1.statements = [("b", stGood)] ∧
    (load_from_file gPrior badData).1 ≠ gPrior := by
  refine ⟨rfl, rfl, ?_⟩
  decide

/-- Loading a list of well-formed records is the fold of `add_statement` over
their statement values. -/
lemma loadRecords_map_some (L : List (String × Statement)) :
    ∀ g0 : KnowledgeGraph,
      loadRecords g0 (L.map (fun p => (p.1, some p.2))) =
        ((L.map Prod.snd).foldl KnowledgeGraph.add_statement g0, true) := by
  induction L with
  | nil => intro g0; rfl
  | cons p rest ih =>
    intro g0
    obtain ⟨k, st⟩ := p
    simp only [List.map_cons, loadRecords, List.foldl_cons]
    exact ih _

/-- Folding `add_statement` over statements with pairwise-fresh ids appends
their bindings to the statement map in order. -/
lemma foldAdd_statements (sts : List Statement) :
    ∀ g0 : KnowledgeGraph,
      (∀ st ∈ sts, st.id ∉ keysOf g0.statements) →
      (sts.map Statement.id).Nodup →
      (sts.foldl KnowledgeGraph.add_statement g0).statements =
        g0.statements ++ sts.map (fun st => (st.id, st)) := by
  induction sts with
  | nil => intro g0 _ _; simp
  | cons st rest ih =>
    intro g0 hfresh hnd
    rw [List.foldl_cons]
    rw [List.map_cons, List.nodup_cons] at hnd
    have hadd : (g0.add_statement st).statements = g0.statements ++ [(st.id, st)] := by
      have h0 : (g0.add_statement st).statements = dictInsert g0.statements st.id st := rfl
      rw [h0, dictInsert_notMem _ _ _ (hfresh st (List.mem_cons_self _ _))]
    have hkeys : keysOf (g0.add_statement st).statements =
        keysOf g0.statements ++ [st.id] := by
      rw [hadd]
      simp [keysOf]
    have hfresh2 : ∀ r ∈ rest, r.id ∉ keysOf (g0.add_statement st).statements := by
      intro r hr
      rw [hkeys, List.mem_append, List.mem_singleton]
      push_neg
      refine ⟨hfresh r (List.mem_cons_of_mem _ hr), ?_⟩
      intro hre
      exact hnd.1 (hre ▸ List.mem_map_of_mem Statement.id hr)
    rw [ih (g0.add_statement st) hfresh2 hnd.2, hadd, List.map_cons]
    simp

/-- Folding `add_statement` over statements with pairwise-fresh ids preserves
index consistency. -/
lemma inv_foldAdd (sts : List Statement) :
    ∀ g0 : KnowledgeGraph, Inv g0 →
      (∀ st ∈ sts, st.id ∉ keysOf g0.statements) →
      (sts.map Statement.id).Nodup →
      Inv (sts.foldl KnowledgeGraph.add_statement g0) := by
  induction sts with
  | nil => intro g0 h _ _; exact h
  | cons st rest ih =>
    intro g0 h0 hfresh hnd
    rw [List.foldl_cons]
    rw [List.map_cons, List.nodup_cons] at hnd
    have hfr : lookupD g0.statements st.id = none := by
      cases hl : lookupD g0.statements st.id with
      | none => rfl
      | some v =>
        exact absurd (mem_keysOf_of_lookupD hl) (hfresh st (List.mem_cons_self _ _))
    have hadd : (g0.add_statement st).statements = g0.statements ++ [(st.id, st)] := by
      have h1 : (g0.add_statement st).statements = dictInsert g0.statements st.id st := rfl
      rw [h1, dictInsert_notMem _ _ _ (hfresh st (List.mem_cons_self _ _))]
    have hkeys : keysOf (g0.add_statement st).statements =
        keysOf g0.statements ++ [st.id] := by
      rw [hadd]
      simp [keysOf]
    have hfresh2 : ∀ r ∈ rest, r.id ∉ keysOf (g0.add_statement st).statements := by
      intro r hr
      rw [hkeys, List.mem_append, List.mem_singleton]
      push_neg
      refine ⟨hfresh r (List.mem_cons_of_mem _ hr), ?_⟩
      intro hre
      exact hnd.1 (hre ▸ List.mem_map_of_mem Statement.id hr)
    exact ih _ (inv_add_fresh g0 st h0 hfr) hfresh2 hnd.2

/-- When every binding keys its statement's id, re-pairing the values by id is
the identity. -/
lemma map_idPair_eq_self (L : List (String × Statement))
    (hid : ∀ p ∈ L, p.1 = (p.2 : Statement).id) :
    L.map (fun p => ((p.2 : Statement).id, p.2)) = L := by
  induction L with
  | nil => rfl
  | cons p rest ih =>
    obtain ⟨a, b⟩ := p
    have h1 : a = b.id := hid (a, b) (List.mem_cons_self _ _)
    rw [List.map_cons, ih (fun q hq => hid q (List.mem_cons_of_mem _ hq)), ← h1]

/-- When every binding keys its statement's id, the value ids are the keys. -/
lemma map_id_snd_eq_keys (L : List (String × Statement))
    (hid : ∀ p ∈ L, p.1 = (p.2 : Statement).id) :
    (L.map Prod.snd).map Statement.id = keysOf L := by
  induction L with
  | nil => rfl
  | cons p rest ih =>
    obtain ⟨a, b⟩ := p
    have h1 : a = b.id := hid (a, b) (List.mem_cons_self _ _)
    simp only [List.map_cons, keysOf_cons]
    rw [ih (fun q hq => hid q (List.mem_cons_of_mem _ hq)), ← h1]

/-- The save-then-load round trip rebuilds exactly the original statement map
when keys are duplicate-free and key their statement's id. -/
lemma roundTrip_statements (g : KnowledgeGraph)
    (hkeys : (keysOf g.statements).Nodup)
    (hid : ∀ p ∈ g.statements, p.1 = (p.2 : Statement).id) :
    (load_from_file g (save_to_file g)).1.statements = g.statements := by
  have h1 : load_from_file g (save_to_file g) =
      ((g.statements.map Prod.snd).foldl KnowledgeGraph.add_statement {}, true) := by
    rw [load_from_file]
    exact loadRecords_map_some g.statements {}
  rw [h1]
  show ((g.statements.map Prod.snd).foldl KnowledgeGraph.add_statement {}).statements =
    g.statements
  have hnd : ((g.statements.map Prod.snd).map Statement.id).Nodup := by
    rw [map_id_snd_eq_keys g.statements hid]
    exact hkeys
  rw [foldAdd_statements (g.statements.map Prod.snd) {} (by intro st _; simp [keysOf]) hnd]
  show [] ++ (g.statements.map Prod.snd).map (fun st => (st.id, st)) = g.statements
  rw [List.nil_append, List.map_map]
  exact map_idPair_eq_self g.statements hid

/-- The reloaded store is index-consistent. -/
lemma roundTrip_inv (g : KnowledgeGraph)
    (hkeys : (keysOf g.statements).Nodup)
    (hid : ∀ p ∈ g.statements, p.1 = (p.2 : Statement).id) :
    Inv (load_from_file g (save_to_file g)).1 := by
  have h1 : load_from_file g (save_to_file g) =
      ((g.statements.map Prod.snd).foldl KnowledgeGraph.add_statement {}, true) := by
    rw [load_from_file]
    exact loadRecords_map_some g.statements {}
  rw [h1]
  show Inv ((g.statements.map Prod.snd).foldl KnowledgeGraph.add_statement {})
  have hnd : ((g.statements.map Prod.snd).map Statement.id).Nodup := by
    rw [map_id_snd_eq_keys g.statements hid]
    exact hkeys
  exact inv_foldAdd _ {} inv_empty (by intro st _; simp [keysOf]) hnd

/-- Entity lookup as an existential over the bucket. -/
lemma mem_get_statements_iff (g : KnowledgeGraph) (e : String) (s : Statement) :
    s ∈ g.get_statements_for_entity e ↔
      ∃ sid, sid ∈ bucketE g.entities e ∧ lookupD g.statements sid = some s := by
  simp [KnowledgeGraph.get_statements_for_entity, List.mem_filterMap]

/-- In an index-consistent store with id-keyed bindings, entity lookup returns
exactly the stored statements mentioning the entity. -/
lemma mem_get_statements_of_inv (g : KnowledgeGraph) (hinv : Inv g)
    (hkeys : (keysOf g.statements).Nodup)
    (hid : ∀ p ∈ g.statements, p.1 = (p.2 : Statement).id) (e : String) (s : Statement) :
    s ∈ g.get_statements_for_entity e ↔
      s ∈ valuesOf g.statements ∧ mentionsB s e = true := by
  rw [mem_get_statements_iff]
  constructor
  · rintro ⟨sid, hb, hl⟩
    obtain ⟨st0, hl0, hm0⟩ := (hinv e sid).mp hb
    rw [hl] at hl0
    obtain rfl := Option.some.inj hl0
    exact ⟨List.mem_map_of_mem Prod.snd (mem_of_lookupD_eq_some hl), hm0⟩
  · rintro ⟨hv, hm⟩
    obtain ⟨p, hp, hps⟩ := List.mem_map.mp hv
    obtain ⟨a, b⟩ := p
    have hb : b = s := hps
    subst hb
    have h1 : a = b.id := hid (a, b) hp
    subst h1
    have hl : lookupD g.statements b.id = some b := lookupD_of_mem_nodup hkeys hp
    exact ⟨b.id, (hinv e b.id).mpr ⟨b, hl, hm⟩, hl⟩

/-- C4 counterexample: a store with a stale index entry (id `s1` re-added under
different triplets) does not survive the round trip — the original store
returns the statement for entity A, the reloaded store does not. -/
theorem c4_counterexample :
    stOverwriteB ∈ gStale.get_statements_for_entity "A" ∧
    stOverwriteB ∉
      (load_from_file gStale (save_to_file gStale)).1.get_statements_for_entity "A" := by
  constructor
  · decide
  · decide

/-- C4 amended: for stores whose statement map has duplicate-free keys, each
binding keyed by its statement's id, and a consistent entity index (all true
of stores built without id collisions), the save-then-load round trip — which
by construction re-runs `add_statement` for every record and ignores the
persisted entity map — preserves `get_statements_for_entity` and
`get_valid_statements_at` as sets. -/
theorem c4_round_trip :
    ∀ g : KnowledgeGraph,
      (keysOf g.statements).Nodup →
      (∀ p ∈ g.statements, p.1 = (p.2 : Statement).id) →
      Inv g →
      (∀ e s, s ∈ (load_from_file g (save_to_file g)).1.get_statements_for_entity e ↔
          s ∈ g.get_statements_for_entity e) ∧
      (∀ t s, s ∈ (load_from_file g (save_to_file g)).1.get_valid_statements_at t ↔
          s ∈ g.get_valid_statements_at t) := by
  intro g hkeys hid hinv
  have hst := roundTrip_statements g hkeys hid
  have hinv2 := roundTrip_inv g hkeys hid
  have hkeys2 : (keysOf (load_from_file g (save_to_file g)).1.statements).Nodup := by
    rw [hst]
    exact hkeys
  have hid2 : ∀ p ∈ (load_from_file g (save_to_file g)).1.statements,
      p.1 = (p.2 : Statement).id := by
    rw [hst]
    exact hid
  constructor
  · intro e s
    rw [mem_get_statements_of_inv _ hinv2 hkeys2 hid2 e s,
      mem_get_statements_of_inv g hinv hkeys hid e s, hst]
  · intro t s
    simp only [KnowledgeGraph.get_valid_statements_at, hst]

/-- C4 witness: the round trip preserves both query forms on the concrete
one-statement store. -/
theorem c4_witness :
    (stW ∈ (load_from_file gW (save_to_file gW)).1.get_statements_for_entity "A" ↔
      stW ∈ gW.get_statements_for_entity "A") ∧
    (stW ∈ (load_from_file gW (save_to_file gW)).1.get_valid_statements_at 5 ↔
      stW ∈ gW.get_valid_statements_at 5) := by
  have h := c4_round_trip gW (by decide) (by decide)
    (inv_add_fresh emptyKG stW inv_empty rfl)
  exact ⟨h.1 "A" stW, h.2 5 stW⟩

/-- C2 witness: concrete instances of the three conjuncts. -/
theorem c2_witness :
    (TemporalEvent.is_valid_at ⟨some 1, some 10, some 3, some 8⟩ 5 = true ↔
      ((∀ v, (some 3 : Option Nat) = some v → v ≤ 5) ∧
       (∀ v, (some 8 : Option Nat) = some v → 5 < v) ∧
       (∀ v, (some 10 : Option Nat) = some v → 5 < v))) ∧
    TemporalEvent.is_valid_at ⟨none, none, some 7, none⟩ 4 = false := by
  refine ⟨c2_is_valid_at_characterization.1 ⟨some 1, some 10, some 3, some 8⟩ 5, ?_⟩
  exact c2_is_valid_at_characterization.2.1 ⟨none, none, some 7, none⟩ 4 7 rfl (by omega)

end TKG
